import Mathlib

/-!
Shallow embedding of the chain-reorganisation monitor of
`eth_defi/event_reader/reorganisation_monitor.py` and of the bounded lazy
timestamp reader of `eth_defi/event_reader/lazy_timestamp_reader.py`,
together with theorems settling the specification's claims about them.

Conventions of the embedding:

* Python `int` block numbers and timestamps become `Nat` (they are nonnegative
  in this code; every subtraction that occurs on a claim-relevant path is
  guarded so that `Nat` truncation agrees with Python's signed arithmetic,
  which is checked case by case where it matters).
* The Python `dict` block buffer becomes a function `Nat → Option BlockHeader`;
  insertion and deletion are pointwise updates.  Iteration order is never
  observed by the modelled operations.
* Methods that can raise return `Except (MonError × ReorganisationMonitor)
  ReorganisationMonitor`: the error carries the state of the object at the
  moment the exception was raised, so partially-applied mutations on an
  exception path are observable, exactly as in Python.
* The abstract chain source (`get_last_block_live` / `fetch_block_data`) is a
  `SourceView`; `update_chain` takes one view per retry attempt, since the
  live chain may answer differently each time the Python object re-reads it.
  `time.sleep` between retries is not modelled (no real time in the model).
* `update_chain` additionally returns ghost observations of its run: the
  number of calls made to `figure_reorganisation_and_new_blocks` and the list
  of successive purge-watermark values.  These extra outputs do not influence
  the computation.
-/

/-- Modelled from the spec: the block header record.  The defining file
`eth_defi/event_reader/block_header.py` is not under `src/`; spec section 3
fixes a Header as `(block_number ≥ 0, block_hash, timestamp)`, which is also
exactly how `reorganisation_monitor.py` consumes it. -/
structure BlockHeader where
  block_number : Nat
  block_hash : String
  timestamp : Nat
deriving DecidableEq, Repr

/-- The Python `dict` from block number to header, as a pointwise map. -/
def BMap : Type := Nat → Option BlockHeader

/-- `self.block_map[block_number] = record`. -/
def bmInsert (bm : BMap) (k : Nat) (v : BlockHeader) : BMap :=
  fun j => if j = k then some v else bm j

/-- `del self.block_map[k]` once the key is known to be present. -/
def bmErase (bm : BMap) (k : Nat) : BMap :=
  fun j => if j = k then none else bm j

/-- The dict holds no entries. -/
def mapEmpty (bm : BMap) : Prop := ∀ k, bm k = none

/-- The dict's keys are exactly the integer interval `[lo, hi]`. -/
def isInterval (bm : BMap) (lo hi : Nat) : Prop :=
  ∀ k, (bm k).isSome ↔ (lo ≤ k ∧ k ≤ hi)

/-- The exceptions raised inside the monitor.  `duplicateBlock` and
`outOfOrder` are the two `assert` statements of `add_block`,
`assertionFailed` is the `assert self.last_block_read` of `truncate`,
`keyError` is Python's `KeyError` from `del` on a missing key,
`reorgDetected` is `ChainReorganisationDetected` with its three payload
fields, and `blockNotAvailable` is `BlockNotAvailable`. -/
inductive MonError where
  | duplicateBlock
  | outOfOrder
  | assertionFailed
  | keyError
  | reorgDetected (block_number : Nat) (original_hash : String) (new_hash : String)
  | blockNotAvailable
deriving DecidableEq, Repr

/-- State of `ReorganisationMonitor` (lines 63-96): the header buffer, the
last read block, and the configuration constants. -/
structure ReorganisationMonitor where
  block_map : BMap
  last_block_read : Nat
  check_depth : Nat
  max_cycle_tries : Nat
  reorg_wait_seconds : Nat

/-- A freshly constructed monitor: empty buffer and the source's default
configuration (`check_depth = 20`, `max_cycle_tries = 10`,
`reorg_wait_seconds = 5`). -/
def mkReorganisationMonitor : ReorganisationMonitor :=
  { block_map := fun _ => none
    last_block_read := 0
    check_depth := 20
    max_cycle_tries := 10
    reorg_wait_seconds := 5 }

/-- `ChainReorganisationResolution` (lines 23-36). -/
structure ChainReorganisationResolution where
  last_live_block : Nat
  latest_block_with_good_data : Nat
  reorg_detected : Bool
deriving DecidableEq, Repr

/-- `add_block` (lines 185-199).  The duplicate-key `assert` runs before the
dict insertion; the in-order `assert` runs after it, so the two failure paths
leave different states behind.  The in-order test is guarded by
`last_block_read != 0` and compares `last_block_read == block_number - 1`;
for `block_number = 0` Python compares against `-1` and our `Nat` model
against `0`, and both fail because the guard ensures `last_block_read ≠ 0`. -/
def add_block (m : ReorganisationMonitor) (record : BlockHeader) :
    Except (MonError × ReorganisationMonitor) ReorganisationMonitor :=
  if (m.block_map record.block_number).isSome then
    .error (.duplicateBlock, m)
  else if m.last_block_read ≠ 0 ∧ m.last_block_read ≠ record.block_number - 1 then
    .error (.outOfOrder,
      { m with block_map := bmInsert m.block_map record.block_number record })
  else
    .ok { m with block_map := bmInsert m.block_map record.block_number record,
                 last_block_read := record.block_number }

/-- `check_block_reorg` (lines 201-222).  The method mutates nothing; it
either raises `ChainReorganisationDetected` or returns normally, so it is a
pure function into `Option MonError`. -/
def check_block_reorg (m : ReorganisationMonitor) (block_number : Nat)
    (block_hash : String) : Option MonError :=
  match m.block_map block_number with
  | some original_block =>
      if original_block.block_hash ≠ block_hash then
        some (.reorgDetected block_number original_block.block_hash block_hash)
      else
        none
  | none => none

/-- The deletion loop of `truncate`: `for j in range(a, a + c): del bm[j]`,
stopping with `KeyError` (and the deletions done so far) on a missing key. -/
def delRange (bm : BMap) (a : Nat) : Nat → Except (MonError × BMap) BMap
  | 0 => .ok bm
  | c + 1 =>
      if (bm a).isSome then delRange (bmErase bm a) (a + 1) c
      else .error (.keyError, bm)

/-- `truncate` (lines 224-233): asserts `last_block_read` is truthy, deletes
every key in `range(latest_good_block + 1, last_block_read + 1)`, then resets
`last_block_read`.  On a `KeyError` the partially-deleted dict remains and
`last_block_read` is untouched. -/
def truncate (m : ReorganisationMonitor) (latest_good_block : Nat) :
    Except (MonError × ReorganisationMonitor) ReorganisationMonitor :=
  if m.last_block_read = 0 then
    .error (.assertionFailed, m)
  else
    match delRange m.block_map (latest_good_block + 1)
        (m.last_block_read - latest_good_block) with
    | .ok bm => .ok { m with block_map := bm, last_block_read := latest_good_block }
    | .error (e, bm) => .error (e, { m with block_map := bm })

/-- One answer of the abstract chain source for one read:
`get_last_block_live()` and `fetch_block_data(start, end)` (inclusive). -/
structure SourceView where
  tip : Nat
  fetch : Nat → Nat → List BlockHeader

/-- The loop body of `figure_reorganisation_and_new_blocks` over the headers
yielded by the source: check each header against the buffer (which may raise)
and append it when its number is not buffered yet. -/
def processBlocks (m : ReorganisationMonitor) :
    List BlockHeader → Except (MonError × ReorganisationMonitor) ReorganisationMonitor
  | [] => .ok m
  | block :: rest =>
      match check_block_reorg m block.block_number block.block_hash with
      | some e => .error (e, m)
      | none =>
          if (m.block_map block.block_number).isSome then
            processBlocks m rest
          else
            match add_block m block with
            | .ok m1 => processBlocks m1 rest
            | .error em => .error em

/-- `figure_reorganisation_and_new_blocks` (lines 235-246): one detection
pass, reading `[max(last_block_read - check_depth, 1), chain_tip]`.
`max(last_block_read - check_depth, 1)` agrees between Python and `Nat`
arithmetic: a negative Python difference and a truncated-to-`0` `Nat`
difference are both clamped to `1`. -/
def figure_reorganisation_and_new_blocks (v : SourceView)
    (m : ReorganisationMonitor) :
    Except (MonError × ReorganisationMonitor) ReorganisationMonitor :=
  processBlocks m (v.fetch (max (m.last_block_read - m.check_depth) 1) v.tip)

/-- `get_block_timestamp` (lines 248-258).  Both raise sites throw
`BlockNotAvailable` (they differ only in the message, which is not modelled),
and an empty dict also misses the lookup, so the two collapse into the single
lookup test.  The method mutates nothing. -/
def get_block_timestamp (m : ReorganisationMonitor) (block_number : Nat) :
    Except MonError Nat :=
  match m.block_map block_number with
  | none => .error .blockNotAvailable
  | some h => .ok h.timestamp

/-- A sequence of `add_block` calls, stopping at the first exception. -/
def addBlocks (m : ReorganisationMonitor) :
    List BlockHeader → Except (MonError × ReorganisationMonitor) ReorganisationMonitor
  | [] => .ok m
  | h :: t =>
      match add_block m h with
      | .ok m1 => addBlocks m1 t
      | .error em => .error em

/-- What `update_chain` can raise: `ReorganisationResolutionFailure` after the
retry budget is exhausted, or any non-reorg exception escaping uncaught. -/
inductive UCError where
  | resolutionFailure
  | uncaught (e : MonError)
deriving DecidableEq, Repr

/-- Result of one run of `update_chain`, together with ghost observations of
the run: the final state of the monitor, the number of calls made to
`figure_reorganisation_and_new_blocks`, and the successive values taken by
the `max_purge` watermark (one entry per caught reorganisation). -/
structure UCOut where
  result : Except UCError ChainReorganisationResolution
  monitor : ReorganisationMonitor
  attempts : Nat
  purges : List Nat

/-- Outcome of one iteration of the `update_chain` loop body. -/
inductive RoundOut where
  | clean (m : ReorganisationMonitor)
  | detected (block_number : Nat) (m : ReorganisationMonitor)
  | fatal (e : MonError) (m : ReorganisationMonitor)

/-- One iteration of the `while tries_left > 0` body: run a detection pass;
on `ChainReorganisationDetected` at block `B` truncate to `B - 1`; any other
exception (from the pass or from `truncate` itself) propagates uncaught. -/
def reorgRound (v : SourceView) (m : ReorganisationMonitor) : RoundOut :=
  match figure_reorganisation_and_new_blocks v m with
  | .ok m1 => .clean m1
  | .error (.reorgDetected bn _ _, m1) =>
      match truncate m1 (bn - 1) with
      | .ok m2 => .detected bn m2
      | .error (e, m2) => .fatal e m2
  | .error (e, m1) => .fatal e m1

/-- The retry loop of `update_chain` (lines 277-300), recursing on
`tries_left`.  On a caught reorganisation at block `B` the watermark becomes
`min(B - 1, max_purge)` when `max_purge` is truthy and `B` otherwise, exactly
as in the source. -/
def update_chain_go (views : Nat → SourceView) (i : Nat) (max_purge : Nat)
    (reorg_detected : Bool) (m : ReorganisationMonitor) : Nat → UCOut
  | 0 => ⟨.error .resolutionFailure, m, 0, []⟩
  | tries + 1 =>
      match reorgRound (views i) m with
      | .clean m1 =>
          ⟨.ok ⟨m1.last_block_read, max_purge, reorg_detected⟩, m1, 1, []⟩
      | .detected bn m2 =>
          let mp := if max_purge ≠ 0 then min (bn - 1) max_purge else bn
          let r := update_chain_go views (i + 1) mp true m2 tries
          ⟨r.result, r.monitor, r.attempts + 1, mp :: r.purges⟩
      | .fatal e m1 => ⟨.error (.uncaught e), m1, 1, []⟩

/-- `update_chain` (lines 266-300): starts with `max_purge` at the entry value
of `last_block_read`, no reorg seen, and `max_cycle_tries` tries left. -/
def update_chain (views : Nat → SourceView) (m : ReorganisationMonitor) : UCOut :=
  update_chain_go views 0 m.last_block_read false m m.max_cycle_tries

/-- `OutOfSpecifiedRangeRead` of `lazy_timestamp_reader.py`. -/
inductive LazyError where
  | outOfSpecifiedRangeRead
deriving DecidableEq, Repr

/-- State of `LazyTimestampContainer` (lines 14-41). -/
structure LazyTimestampContainer where
  start_block : Nat
  end_block : Nat
  cache_by_block_hash : String → Option Nat
  cache_by_block_number : Nat → Option Nat

/-- The constructor of `LazyTimestampContainer`: asserts `start_block > 0` and
`end_block >= start_block` and starts with empty caches. -/
def mkLazyTimestampContainer (start_block end_block : Nat) :
    Option LazyTimestampContainer :=
  if 0 < start_block ∧ start_block ≤ end_block then
    some ⟨start_block, end_block, fun _ => none, fun _ => none⟩
  else
    none

/-- The JSON-RPC answer consumed by `update_block_hash`: the fetched block's
number, hash and timestamp (the network call itself is outside the model). -/
structure RpcBlockResponse where
  number : Nat
  hash : String
  timestamp : Nat
deriving DecidableEq, Repr

/-- `LazyTimestampContainer.update_block_hash` (lines 43-64): raise
`OutOfSpecifiedRangeRead` when the fetched number is outside
`[start_block, end_block]`, otherwise cache the timestamp under both the hash
and the number and return it. -/
def update_block_hash (c : LazyTimestampContainer) (result : RpcBlockResponse) :
    Except LazyError (Nat × LazyTimestampContainer) :=
  if ¬ (c.start_block ≤ result.number ∧ result.number ≤ c.end_block) then
    .error .outOfSpecifiedRangeRead
  else
    .ok (result.timestamp,
      { c with
        cache_by_block_hash := fun h =>
          if h = result.hash then some result.timestamp else c.cache_by_block_hash h
        cache_by_block_number := fun n =>
          if n = result.number then some result.timestamp else c.cache_by_block_number n })

/-! ### Invariants of the data model and the source contract -/

/-- The HeaderBuffer invariant of spec section 3: the buffer is empty, or its
keys form an unbroken interval of positive block numbers ending at
`last_block_read`. -/
def GoodBuffer (m : ReorganisationMonitor) : Prop :=
  mapEmpty m.block_map ∨
    ∃ lo, 1 ≤ lo ∧ lo ≤ m.last_block_read ∧
      isInterval m.block_map lo m.last_block_read

/-- The source contract of spec section 6 for one fetched batch: headers carry
pairwise distinct, positive block numbers. -/
def goodFetchList (l : List BlockHeader) : Prop :=
  l.Pairwise (fun a b => a.block_number ≠ b.block_number) ∧
    ∀ h ∈ l, 1 ≤ h.block_number

/-- The source contract for a view: every fetch the monitor can issue (it
always issues `start ≥ 1`) obeys `goodFetchList`. -/
def goodSource (v : SourceView) : Prop :=
  ∀ s e, 1 ≤ s → goodFetchList (v.fetch s e)

/-! ### Basic lemmas about the single-step operations -/

lemma add_block_ok_elim {m m' : ReorganisationMonitor} {h : BlockHeader}
    (hok : add_block m h = .ok m') :
    m.block_map h.block_number = none ∧
    (m.last_block_read = 0 ∨ m.last_block_read = h.block_number - 1) ∧
    m' = { m with block_map := bmInsert m.block_map h.block_number h,
                  last_block_read := h.block_number } := by
  unfold add_block at hok
  split at hok
  · exact absurd hok (by simp)
  next hnone =>
    split at hok
    · exact absurd hok (by simp)
    next hcond =>
      refine ⟨Option.not_isSome_iff_eq_none.mp (by simpa using hnone), ?_, ?_⟩
      · rcases Decidable.not_and_iff_or_not.mp hcond with h1 | h2
        · exact Or.inl (not_not.mp h1)
        · exact Or.inr (not_not.mp h2)
      · cases hok
        rfl

lemma add_block_ok_intro {m : ReorganisationMonitor} {h : BlockHeader}
    (h1 : m.block_map h.block_number = none)
    (h2 : m.last_block_read = 0 ∨ m.last_block_read = h.block_number - 1) :
    add_block m h =
      .ok { m with block_map := bmInsert m.block_map h.block_number h,
                   last_block_read := h.block_number } := by
  unfold add_block
  rw [if_neg (by simp [h1])]
  rw [if_neg (by rcases h2 with h2 | h2 <;> simp [h2])]

lemma add_block_error_shape {m m2 : ReorganisationMonitor} {h : BlockHeader}
    {e : MonError} (her : add_block m h = .error (e, m2)) :
    e = .duplicateBlock ∨ e = .outOfOrder := by
  unfold add_block at her
  split at her
  · cases her; exact Or.inl rfl
  · split at her
    · cases her
      exact Or.inr rfl
    · exact absurd her (by simp)

lemma check_block_reorg_none_of_agree {m : ReorganisationMonitor} {bn : Nat}
    {bh : String}
    (hag : ∀ hdr, m.block_map bn = some hdr → hdr.block_hash = bh) :
    check_block_reorg m bn bh = none := by
  unfold check_block_reorg
  cases hmb : m.block_map bn with
  | none => rfl
  | some hdr => simp [hag hdr hmb]

lemma check_block_reorg_eq_some {m : ReorganisationMonitor} {bn : Nat}
    {bh : String} {e : MonError} :
    check_block_reorg m bn bh = some e ↔
      ∃ hdr, m.block_map bn = some hdr ∧ hdr.block_hash ≠ bh ∧
        e = .reorgDetected bn hdr.block_hash bh := by
  unfold check_block_reorg
  cases hmb : m.block_map bn with
  | none => simp
  | some hdr =>
      by_cases hne : hdr.block_hash = bh
      · simp [hne]
      · simp only [if_pos hne, Option.some.injEq]
        constructor
        · intro he; exact ⟨hdr, rfl, hne, he.symm⟩
        · rintro ⟨hdr', heq, _, he⟩
          cases heq
          exact he.symm

lemma delRange_ok :
    ∀ (c a : Nat) (bm : BMap),
      (∀ j, a ≤ j → j < a + c → (bm j).isSome) →
      delRange bm a c = .ok (fun k => if a ≤ k ∧ k < a + c then none else bm k) := by
  intro c
  induction c with
  | zero =>
      intro a bm _
      unfold delRange
      congr 1
      funext k
      rw [if_neg (by omega)]
  | succ c ih =>
      intro a bm hall
      unfold delRange
      rw [if_pos (hall a (le_refl a) (by omega))]
      rw [ih (a + 1) (bmErase bm a) ?_]
      · congr 1
        funext k
        by_cases hka : k = a
        · rw [if_neg (show ¬ (a + 1 ≤ k ∧ k < a + 1 + c) by omega),
            if_pos (show a ≤ k ∧ k < a + (c + 1) by omega)]
          simp [bmErase, hka]
        · by_cases h2 : a + 1 ≤ k ∧ k < a + 1 + c
          · rw [if_pos h2, if_pos (show a ≤ k ∧ k < a + (c + 1) by omega)]
          · rw [if_neg h2, if_neg (show ¬ (a ≤ k ∧ k < a + (c + 1)) by omega)]
            simp [bmErase, hka]
      · intro j hj1 hj2
        have hja : j ≠ a := by omega
        simp only [bmErase, if_neg hja]
        exact hall j (by omega) (by omega)

lemma truncate_spec {m : ReorganisationMonitor} {lo K : Nat}
    (hlo1 : 1 ≤ lo) (hlole : lo ≤ m.last_block_read)
    (hint : isInterval m.block_map lo m.last_block_read)
    (hK : lo ≤ K + 1) :
    truncate m K = .ok { m with
      block_map := fun k => if k ≤ K then m.block_map k else none,
      last_block_read := K } := by
  have hdel := delRange_ok (m.last_block_read - K) (K + 1) m.block_map
    (fun j hj1 hj2 => (hint j).mpr ⟨by omega, by omega⟩)
  have hF : (fun k => if K + 1 ≤ k ∧ k < K + 1 + (m.last_block_read - K) then none
        else m.block_map k) =
      (fun k : Nat => if k ≤ K then m.block_map k else none) := by
    funext k
    by_cases hk : k ≤ K
    · rw [if_neg (by omega), if_pos hk]
    · rw [if_neg hk]
      by_cases h2 : K + 1 ≤ k ∧ k < K + 1 + (m.last_block_read - K)
      · rw [if_pos h2]
      · rw [if_neg h2]
        refine Option.not_isSome_iff_eq_none.mp (fun hs => ?_)
        have := (hint k).mp hs
        omega
  unfold truncate
  rw [if_neg (by omega), hdel, hF]

lemma goodBuffer_last_zero {m : ReorganisationMonitor} (hg : GoodBuffer m)
    (h0 : m.last_block_read = 0) : mapEmpty m.block_map := by
  rcases hg with hemp | ⟨lo, hlo1, hlole, _⟩
  · exact hemp
  · omega

lemma add_block_good {m m' : ReorganisationMonitor} {h : BlockHeader}
    (hg : GoodBuffer m) (h1 : 1 ≤ h.block_number)
    (hok : add_block m h = .ok m') :
    GoodBuffer m' ∧ m'.last_block_read = h.block_number := by
  obtain ⟨hnone, hord, hm'⟩ := add_block_ok_elim hok
  subst hm'
  refine ⟨?_, rfl⟩
  rcases hg with hemp | ⟨lo, hlo1, hlole, hint⟩
  · right
    refine ⟨h.block_number, h1, le_refl _, fun k => ?_⟩
    simp only [bmInsert]
    by_cases hk : k = h.block_number
    · simp [hk]
    · simp only [if_neg hk, hemp k, Option.isSome_none]
      constructor
      · intro hfalse
        exact absurd hfalse (by simp)
      · intro hrange
        omega
  · right
    have hlast : m.last_block_read = h.block_number - 1 := by
      rcases hord with h0 | h0
      · omega
      · exact h0
    have hsucc : h.block_number = m.last_block_read + 1 := by omega
    refine ⟨lo, hlo1, show lo ≤ h.block_number by omega, fun k => ?_⟩
    simp only [bmInsert]
    by_cases hk : k = h.block_number
    · simp only [if_pos hk, Option.isSome_some]
      constructor
      · intro _
        omega
      · intro _
        trivial
    · simp only [if_neg hk]
      rw [hint k]
      omega

/-- The buffer after a pointwise restriction to keys `≤ K` still satisfies the
invariant. -/
lemma goodBuffer_restrict {m : ReorganisationMonitor} (lo K : Nat)
    (hlo1 : 1 ≤ lo) (_hlole : lo ≤ m.last_block_read)
    (hKle : K ≤ m.last_block_read)
    (hint : isInterval m.block_map lo m.last_block_read) :
    GoodBuffer { m with
      block_map := fun k => if k ≤ K then m.block_map k else none,
      last_block_read := K } := by
  by_cases hK : lo ≤ K
  · right
    refine ⟨lo, hlo1, hK, fun k => ?_⟩
    simp only
    by_cases hk : k ≤ K
    · rw [if_pos hk, hint k]
      omega
    · rw [if_neg hk]
      simp only [Option.isSome_none]
      constructor
      · intro hfalse
        exact absurd hfalse (by simp)
      · intro hrange
        omega
  · left
    intro k
    simp only
    by_cases hk : k ≤ K
    · rw [if_pos hk]
      refine Option.not_isSome_iff_eq_none.mp (fun hs => ?_)
      have := (hint k).mp hs
      omega
    · rw [if_neg hk]

/-- The buffer entries agree with the hashes a fetched batch carries for the
same numbers (vacuously true for an empty buffer). -/
def mapAgrees (bm : BMap) (l : List BlockHeader) : Prop :=
  ∀ h ∈ l, ∀ hdr, bm h.block_number = some hdr → hdr.block_hash = h.block_hash

lemma processBlocks_spec :
    ∀ (l : List BlockHeader) (m : ReorganisationMonitor),
      GoodBuffer m → (∀ h ∈ l, 1 ≤ h.block_number) →
      (∀ m', processBlocks m l = .ok m' → GoodBuffer m') ∧
      (∀ bn o nh m', processBlocks m l = .error (.reorgDetected bn o nh, m') →
        GoodBuffer m' ∧
          ∃ hdr, m'.block_map bn = some hdr ∧ hdr.block_hash = o ∧ o ≠ nh) := by
  intro l
  induction l with
  | nil =>
      intro m hg _
      constructor
      · intro m' hok
        simp only [processBlocks] at hok
        cases hok
        exact hg
      · intro bn o nh m' herr
        simp only [processBlocks] at herr
        exact absurd herr (by simp)
  | cons b t ih =>
      intro m hg hpos
      have hposb : 1 ≤ b.block_number := hpos b (by simp)
      have hpost : ∀ h ∈ t, 1 ≤ h.block_number := fun h hht => hpos h (by simp [hht])
      cases hc : check_block_reorg m b.block_number b.block_hash with
      | some e =>
          have heq : processBlocks m (b :: t) = .error (e, m) := by
            simp [processBlocks, hc]
          constructor
          · intro m' hok
            rw [heq] at hok
            exact absurd hok (by simp)
          · intro bn o nh m' herr
            rw [heq] at herr
            obtain ⟨hdr, hsome, hne, he⟩ := check_block_reorg_eq_some.mp hc
            have h1 : e = MonError.reorgDetected bn o nh ∧ m = m' := by
              have := herr
              simp only [Except.error.injEq, Prod.mk.injEq] at this
              exact this
            obtain ⟨he2, hm⟩ := h1
            subst hm
            rw [he] at he2
            injection he2 with hbn ho hnh
            subst hbn
            subst ho
            subst hnh
            exact ⟨hg, hdr, hsome, rfl, hne⟩
      | none =>
          by_cases hin : (m.block_map b.block_number).isSome
          · have heq : processBlocks m (b :: t) = processBlocks m t := by
              simp [processBlocks, hc, hin]
            rw [heq]
            exact ih m hg hpost
          · cases ha : add_block m b with
            | ok m1 =>
                have heq : processBlocks m (b :: t) = processBlocks m1 t := by
                  simp [processBlocks, hc, hin, ha]
                rw [heq]
                exact ih m1 (add_block_good hg hposb ha).1 hpost
            | error em =>
                obtain ⟨e2, m2⟩ := em
                have heq : processBlocks m (b :: t) = .error (e2, m2) := by
                  simp [processBlocks, hc, hin, ha]
                constructor
                · intro m' hok
                  rw [heq] at hok
                  exact absurd hok (by simp)
                · intro bn o nh m' herr
                  rw [heq] at herr
                  have h1 : e2 = MonError.reorgDetected bn o nh := by
                    have := herr
                    simp only [Except.error.injEq, Prod.mk.injEq] at this
                    exact this.1
                  rcases add_block_error_shape ha with h2 | h2 <;> simp [h2] at h1

lemma processBlocks_no_reorg :
    ∀ (l : List BlockHeader) (m : ReorganisationMonitor),
      mapAgrees m.block_map l →
      l.Pairwise (fun a b => a.block_number ≠ b.block_number) →
      ∀ bn o nh m', processBlocks m l ≠ .error (.reorgDetected bn o nh, m') := by
  intro l
  induction l with
  | nil =>
      intro m _ _ bn o nh m' h
      simp [processBlocks] at h
  | cons b t ih =>
      intro m hag hpw bn o nh m' h
      have hcheck : check_block_reorg m b.block_number b.block_hash = none :=
        check_block_reorg_none_of_agree (hag b (by simp))
      have hagt : mapAgrees m.block_map t :=
        fun h' hh' => hag h' (by simp [hh'])
      have hpwt := (List.pairwise_cons.mp hpw).2
      have hpwhd := (List.pairwise_cons.mp hpw).1
      by_cases hin : (m.block_map b.block_number).isSome
      · have heq : processBlocks m (b :: t) = processBlocks m t := by
          simp [processBlocks, hcheck, hin]
        rw [heq] at h
        exact ih m hagt hpwt bn o nh m' h
      · cases ha : add_block m b with
        | ok m1 =>
            have heq : processBlocks m (b :: t) = processBlocks m1 t := by
              simp [processBlocks, hcheck, hin, ha]
            rw [heq] at h
            obtain ⟨_, _, hm1⟩ := add_block_ok_elim ha
            refine ih m1 ?_ hpwt bn o nh m' h
            intro h' hh' hdr hsome
            rw [hm1] at hsome
            simp only [bmInsert] at hsome
            by_cases hnum : h'.block_number = b.block_number
            · exact absurd hnum.symm (hpwhd h' hh')
            · rw [if_neg hnum] at hsome
              exact hag h' (by simp [hh']) hdr hsome
        | error em =>
            obtain ⟨e2, m2⟩ := em
            have heq : processBlocks m (b :: t) = .error (e2, m2) := by
              simp [processBlocks, hcheck, hin, ha]
            rw [heq] at h
            have h1 : e2 = MonError.reorgDetected bn o nh := by
              have := h
              simp only [Except.error.injEq, Prod.mk.injEq] at this
              exact this.1
            rcases add_block_error_shape ha with h2 | h2 <;> simp [h2] at h1

lemma reorgRound_clean_iff {v : SourceView} {m m1 : ReorganisationMonitor} :
    reorgRound v m = .clean m1 ↔
      figure_reorganisation_and_new_blocks v m = .ok m1 := by
  unfold reorgRound
  cases hf : figure_reorganisation_and_new_blocks v m with
  | ok m2 => simp
  | error em =>
      obtain ⟨e, m2⟩ := em
      cases e with
      | reorgDetected bn o nh =>
          cases ht : truncate m2 (bn - 1) with
          | ok m3 => simp [ht]
          | error em2 =>
              obtain ⟨e2, m3⟩ := em2
              simp [ht]
      | duplicateBlock => simp
      | outOfOrder => simp
      | assertionFailed => simp
      | keyError => simp
      | blockNotAvailable => simp

lemma reorgRound_detected_iff {v : SourceView} {m m2 : ReorganisationMonitor}
    {bn : Nat} :
    reorgRound v m = .detected bn m2 ↔
      ∃ o nh m1,
        figure_reorganisation_and_new_blocks v m = .error (.reorgDetected bn o nh, m1) ∧
        truncate m1 (bn - 1) = .ok m2 := by
  unfold reorgRound
  cases hf : figure_reorganisation_and_new_blocks v m with
  | ok m3 => simp
  | error em =>
      obtain ⟨e, m3⟩ := em
      cases e with
      | reorgDetected bn' o nh =>
          cases ht : truncate m3 (bn' - 1) with
          | ok m4 =>
              simp only [ht]
              simp [ht]
              constructor
              · rintro ⟨rfl, rfl⟩
                exact ⟨o, nh, m3, ⟨⟨rfl, rfl, rfl⟩, rfl⟩, ht⟩
              · rintro ⟨o1, nh1, m1, ⟨⟨rfl, _, _⟩, rfl⟩, h2⟩
                rw [ht] at h2
                injection h2 with h3
                exact ⟨rfl, h3⟩
          | error em2 =>
              obtain ⟨e2, m4⟩ := em2
              simp [ht]
              rintro o1 nh1 m1 rfl _ _ rfl hc
              rw [ht] at hc
              exact absurd hc (by simp)
      | duplicateBlock => simp
      | outOfOrder => simp
      | assertionFailed => simp
      | keyError => simp
      | blockNotAvailable => simp

lemma update_chain_go_failure_iff :
    ∀ (tries : Nat) (views : Nat → SourceView) (i mp : Nat) (rd : Bool)
      (m : ReorganisationMonitor),
      ((update_chain_go views i mp rd m tries).result = .error .resolutionFailure ↔
        ((update_chain_go views i mp rd m tries).attempts = tries ∧
          (update_chain_go views i mp rd m tries).purges.length = tries)) := by
  intro tries
  induction tries with
  | zero =>
      intro views i mp rd m
      simp [update_chain_go]
  | succ t ih =>
      intro views i mp rd m
      cases hr : reorgRound (views i) m with
      | clean m1 =>
          have hout : update_chain_go views i mp rd m (t + 1) =
              ⟨.ok ⟨m1.last_block_read, mp, rd⟩, m1, 1, []⟩ := by
            simp [update_chain_go, hr]
          rw [hout]
          constructor
          · intro h
            exact absurd h (by simp)
          · rintro ⟨h1, h2⟩
            simp only [List.length_nil] at h2
            omega
      | detected bn m2 =>
          have hout : update_chain_go views i mp rd m (t + 1) =
              ⟨(update_chain_go views (i + 1)
                  (if mp ≠ 0 then min (bn - 1) mp else bn) true m2 t).result,
               (update_chain_go views (i + 1)
                  (if mp ≠ 0 then min (bn - 1) mp else bn) true m2 t).monitor,
               (update_chain_go views (i + 1)
                  (if mp ≠ 0 then min (bn - 1) mp else bn) true m2 t).attempts + 1,
               (if mp ≠ 0 then min (bn - 1) mp else bn) ::
                 (update_chain_go views (i + 1)
                    (if mp ≠ 0 then min (bn - 1) mp else bn) true m2 t).purges⟩ := by
            simp [update_chain_go, hr]
          rw [hout]
          have hih := ih views (i + 1) (if mp ≠ 0 then min (bn - 1) mp else bn) true m2
          constructor
          · intro h
            dsimp only at h ⊢
            obtain ⟨h3, h4⟩ := hih.mp h
            simp only [List.length_cons]
            omega
          · rintro ⟨h1, h2⟩
            dsimp only at h1 h2
            simp only [List.length_cons] at h2
            exact hih.mpr ⟨by omega, by omega⟩
      | fatal e m1 =>
          have hout : update_chain_go views i mp rd m (t + 1) =
              ⟨.error (.uncaught e), m1, 1, []⟩ := by
            simp [update_chain_go, hr]
          rw [hout]
          constructor
          · intro h
            exact absurd h (by simp)
          · rintro ⟨h1, h2⟩
            simp only [List.length_nil] at h2
            omega

lemma update_chain_go_watermarks :
    ∀ (tries : Nat) (views : Nat → SourceView) (i mp : Nat) (rd : Bool)
      (m : ReorganisationMonitor),
      GoodBuffer m → (mp = 0 → mapEmpty m.block_map) →
      (∀ j, goodSource (views j)) →
      List.Chain' (fun a b => b ≤ a)
        (mp :: (update_chain_go views i mp rd m tries).purges) ∧
      (∀ res, (update_chain_go views i mp rd m tries).result = .ok res →
        res.latest_block_with_good_data =
          (update_chain_go views i mp rd m tries).purges.getLastD mp ∧
        GoodBuffer (update_chain_go views i mp rd m tries).monitor) := by
  intro tries
  induction tries with
  | zero =>
      intro views i mp rd m hg hmp hsrc
      constructor
      · simp [update_chain_go]
      · intro res hres
        simp [update_chain_go] at hres
  | succ t ih =>
      intro views i mp rd m hg hmp hsrc
      cases hr : reorgRound (views i) m with
      | clean m1 =>
          have hfig := reorgRound_clean_iff.mp hr
          have hflist := hsrc i (max (m.last_block_read - m.check_depth) 1)
            (views i).tip (le_max_right _ _)
          have hfig' : processBlocks m
              ((views i).fetch (max (m.last_block_read - m.check_depth) 1)
                (views i).tip) = .ok m1 := hfig
          have hgood1 : GoodBuffer m1 :=
            (processBlocks_spec _ m hg hflist.2).1 m1 hfig'
          have hout : update_chain_go views i mp rd m (t + 1) =
              ⟨.ok ⟨m1.last_block_read, mp, rd⟩, m1, 1, []⟩ := by
            simp [update_chain_go, hr]
          rw [hout]
          constructor
          · simp
          · intro res hres
            simp only [Except.ok.injEq] at hres
            rw [← hres]
            exact ⟨rfl, hgood1⟩
      | detected bn m2 =>
          obtain ⟨o, nh, m1, hfig, htr⟩ := reorgRound_detected_iff.mp hr
          have hflist := hsrc i (max (m.last_block_read - m.check_depth) 1)
            (views i).tip (le_max_right _ _)
          have hfig' : processBlocks m
              ((views i).fetch (max (m.last_block_read - m.check_depth) 1)
                (views i).tip) = .error (.reorgDetected bn o nh, m1) := hfig
          obtain ⟨hg1, hdr, hsome, hhash, hne⟩ :=
            (processBlocks_spec _ m hg hflist.2).2 bn o nh m1 hfig'
          have hnonempty : ¬ mapEmpty m.block_map := by
            intro hemp
            refine processBlocks_no_reorg _ m ?_ hflist.1 bn o nh m1 hfig'
            intro h' _ hdr' hsome'
            rw [hemp h'.block_number] at hsome'
            cases hsome'
          have hmpne : mp ≠ 0 := fun h0 => hnonempty (hmp h0)
          rcases hg1 with hemp1 | ⟨lo, hlo1, hlole, hint⟩
          · rw [hemp1 bn] at hsome
            cases hsome
          have hbn := (hint bn).mp (by rw [hsome]; rfl)
          have htr2 := truncate_spec hlo1 hlole hint
            (show lo ≤ (bn - 1) + 1 by omega)
          rw [htr2] at htr
          injection htr with hm2
          have hg2 : GoodBuffer m2 := by
            rw [← hm2]
            exact goodBuffer_restrict lo (bn - 1) hlo1 hlole (by omega) hint
          have hempty2 : min (bn - 1) mp = 0 → mapEmpty m2.block_map := by
            intro h0
            have hbn1 : bn = 1 := by omega
            rw [← hm2]
            intro k
            show (if k ≤ bn - 1 then m1.block_map k else none) = none
            by_cases hk : k ≤ bn - 1
            · rw [if_pos hk]
              refine Option.not_isSome_iff_eq_none.mp (fun hs => ?_)
              have := (hint k).mp hs
              omega
            · rw [if_neg hk]
          have hmp'' : (if mp ≠ 0 then min (bn - 1) mp else bn) = min (bn - 1) mp :=
            if_pos hmpne
          have hih := ih views (i + 1) (min (bn - 1) mp) true m2 hg2 hempty2 hsrc
          have hout : update_chain_go views i mp rd m (t + 1) =
              ⟨(update_chain_go views (i + 1) (min (bn - 1) mp) true m2 t).result,
               (update_chain_go views (i + 1) (min (bn - 1) mp) true m2 t).monitor,
               (update_chain_go views (i + 1) (min (bn - 1) mp) true m2 t).attempts + 1,
               min (bn - 1) mp ::
                 (update_chain_go views (i + 1) (min (bn - 1) mp) true m2 t).purges⟩ := by
            simp [update_chain_go, hr, hmp'']
          rw [hout]
          constructor
          · rw [List.chain'_cons]
            exact ⟨min_le_right _ _, hih.1⟩
          · intro res hres
            have h2 := hih.2 res hres
            refine ⟨?_, h2.2⟩
            rw [List.getLastD_cons]
            exact h2.1
      | fatal e m1 =>
          have hout : update_chain_go views i mp rd m (t + 1) =
              ⟨.error (.uncaught e), m1, 1, []⟩ := by
            simp [update_chain_go, hr]
          rw [hout]
          constructor
          · simp
          · intro res hres
            simp at hres

lemma processBlocks_range_last :
    ∀ (c s : Nat) (m m' : ReorganisationMonitor) (f : Nat → BlockHeader),
      1 ≤ s → GoodBuffer m → (∀ n, (f n).block_number = n) →
      processBlocks m ((List.range' s c).map f) = .ok m' →
      m'.last_block_read =
        if c = 0 then m.last_block_read else max m.last_block_read (s + c - 1) := by
  intro c
  induction c with
  | zero =>
      intro s m m' f hs hg hf hok
      simp only [List.range', List.map_nil, processBlocks] at hok
      cases hok
      simp
  | succ c ih =>
      intro s m m' f hs hg hf hok
      have hcons : (List.range' s (c + 1)).map f = f s :: (List.range' (s + 1) c).map f := rfl
      rw [hcons] at hok
      cases hc : check_block_reorg m (f s).block_number (f s).block_hash with
      | some e =>
          have heq : processBlocks m (f s :: (List.range' (s + 1) c).map f) = .error (e, m) := by
            simp [processBlocks, hc]
          rw [heq] at hok
          exact absurd hok (by simp)
      | none =>
          by_cases hin : (m.block_map (f s).block_number).isSome
          · have heq : processBlocks m (f s :: (List.range' (s + 1) c).map f) =
                processBlocks m ((List.range' (s + 1) c).map f) := by
              simp [processBlocks, hc, hin]
            rw [heq] at hok
            have hlast := ih (s + 1) m m' f (by omega) hg hf hok
            rw [hf s] at hin
            have hsle : s ≤ m.last_block_read := by
              rcases hg with hemp | ⟨lo, hlo1, _, hint⟩
              · rw [hemp s] at hin
                exact absurd hin (by simp)
              · exact ((hint s).mp hin).2
            rw [hlast, if_neg (show ¬ (c + 1 = 0) by omega)]
            by_cases hc0 : c = 0
            · rw [if_pos hc0]
              omega
            · rw [if_neg hc0]
              omega
          · cases ha : add_block m (f s) with
            | ok m1 =>
                have heq : processBlocks m (f s :: (List.range' (s + 1) c).map f) =
                    processBlocks m1 ((List.range' (s + 1) c).map f) := by
                  simp [processBlocks, hc, hin, ha]
                rw [heq] at hok
                have h1pos : 1 ≤ (f s).block_number := by rw [hf s]; omega
                have hgm1 := add_block_good hg h1pos ha
                have hlast1 : m1.last_block_read = s := by rw [hgm1.2, hf s]
                have hords := add_block_ok_elim ha
                have hmle : m.last_block_read ≤ s := by
                  rcases hords.2.1 with h0 | h0
                  · omega
                  · rw [hf s] at h0
                    omega
                have hlast := ih (s + 1) m1 m' f (by omega) hgm1.1 hf hok
                rw [hlast, hlast1, if_neg (show ¬ (c + 1 = 0) by omega)]
                by_cases hc0 : c = 0
                · rw [if_pos hc0]
                  omega
                · rw [if_neg hc0]
                  omega
            | error em =>
                obtain ⟨e2, m2⟩ := em
                have heq : processBlocks m (f s :: (List.range' (s + 1) c).map f) =
                    .error (e2, m2) := by
                  simp [processBlocks, hc, hin, ha]
                rw [heq] at hok
                exact absurd hok (by simp)

lemma addBlocks_good :
    ∀ (l : List BlockHeader) (m m' : ReorganisationMonitor),
      GoodBuffer m → (∀ h ∈ l, 1 ≤ h.block_number) →
      addBlocks m l = .ok m' →
      GoodBuffer m' ∧ (∀ k, (m.block_map k).isSome → (m'.block_map k).isSome) := by
  intro l
  induction l with
  | nil =>
      intro m m' hg _ hok
      simp only [addBlocks] at hok
      cases hok
      exact ⟨hg, fun k hk => hk⟩
  | cons b t ih =>
      intro m m' hg hpos hok
      simp only [addBlocks] at hok
      cases ha : add_block m b with
      | ok m1 =>
          rw [ha] at hok
          have hgm1 := add_block_good hg (hpos b (by simp)) ha
          have hrec := ih m1 m' hgm1.1 (fun h hh => hpos h (by simp [hh])) hok
          refine ⟨hrec.1, fun k hk => hrec.2 k ?_⟩
          obtain ⟨_, _, hm1⟩ := add_block_ok_elim ha
          rw [hm1]
          simp only [bmInsert]
          by_cases hkb : k = b.block_number
          · simp [hkb]
          · rw [if_neg hkb]
            exact hk
      | error em =>
          obtain ⟨e2, m2⟩ := em
          rw [ha] at hok
          exact absurd hok (by simp)

lemma add_block_error_iff (m : ReorganisationMonitor) (h : BlockHeader) :
    (∃ e m2, add_block m h = .error (e, m2)) ↔
      ((m.block_map h.block_number).isSome ∨
        (m.last_block_read ≠ 0 ∧ h.block_number ≠ m.last_block_read + 1)) := by
  unfold add_block
  constructor
  · rintro ⟨e, m2, he⟩
    by_cases h1 : (m.block_map h.block_number).isSome
    · exact Or.inl h1
    · rw [if_neg h1] at he
      by_cases h2 : m.last_block_read ≠ 0 ∧ m.last_block_read ≠ h.block_number - 1
      · exact Or.inr ⟨h2.1, fun hsucc => h2.2 (by omega)⟩
      · rw [if_neg h2] at he
        exact absurd he (by simp)
  · intro hcond
    by_cases h1 : (m.block_map h.block_number).isSome
    · exact ⟨.duplicateBlock, m, by rw [if_pos h1]⟩
    · rcases hcond with hdup | ⟨hne0, hnesucc⟩
      · exact absurd hdup h1
      · refine ⟨.outOfOrder,
          { m with block_map := bmInsert m.block_map h.block_number h }, ?_⟩
        rw [if_neg h1, if_pos ⟨hne0, fun heq => hnesucc (by omega)⟩]

/-! ### Concrete instances used by the claims -/

/-- Hash convention of the originally buffered chain (as in the repo's tests,
where the mock hash of block `n` is derived from `n`). -/
def chainHash (k : Nat) : String := toString k

/-- Header of block `k` on the original chain. -/
def originalHeader (k : Nat) : BlockHeader := ⟨k, chainHash k, k⟩

/-- A fetch that yields exactly the requested inclusive range `[s, e]`, one
header per number, built from `f`. -/
def mkFetch (f : Nat → BlockHeader) : Nat → Nat → List BlockHeader :=
  fun s e => (List.range' s (e + 1 - s)).map f

/-- A monitor whose buffer holds blocks `1 .. n` of the original chain, with
the default configuration. -/
def mkBufferedMonitor (n : Nat) : ReorganisationMonitor :=
  { block_map := fun k => if 1 ≤ k ∧ k ≤ n then some (originalHeader k) else none
    last_block_read := n
    check_depth := 20
    max_cycle_tries := 10
    reorg_wait_seconds := 5 }

lemma mkBufferedMonitor_good {n : Nat} (hn : 1 ≤ n) :
    GoodBuffer (mkBufferedMonitor n) := by
  right
  refine ⟨1, le_refl 1, hn, fun k => ?_⟩
  show (if 1 ≤ k ∧ k ≤ n then some (originalHeader k) else none).isSome ↔
    1 ≤ k ∧ k ≤ n
  by_cases hk : 1 ≤ k ∧ k ≤ n
  · simp [hk]
  · simp [hk]

lemma goodSource_mkFetch (tip : Nat) (f : Nat → BlockHeader)
    (hf : ∀ n, (f n).block_number = n) :
    goodSource ⟨tip, mkFetch f⟩ := by
  intro s e hs
  show goodFetchList ((List.range' s (e + 1 - s)).map f)
  constructor
  · refine List.Pairwise.map f (fun a b hab => ?_) (List.pairwise_lt_range' s _)
    rw [hf a, hf b]
    omega
  · intro h hh
    obtain ⟨k, hk, rfl⟩ := List.mem_map.mp hh
    rw [hf k]
    have := List.mem_range'_1.mp hk
    omega

/-- The forked chain of claim C1's convergence run: from block 10 up the
hashes differ from the original chain. -/
def c1ForkHeader (k : Nat) : BlockHeader :=
  if 10 ≤ k then ⟨k, "F" ++ toString k, k⟩ else originalHeader k

/-- The C1 source: the fork at block 10 is visible on every attempt (a stable
post-fork chain), with a chain tip of 12. -/
def c1Views : Nat → SourceView := fun _ => ⟨12, mkFetch c1ForkHeader⟩

/-- The C1 monitor: blocks 1..12 of the original chain buffered. -/
def c1Monitor : ReorganisationMonitor := mkBufferedMonitor 12

/-- The C2 source: on attempt `i` the chain forks at block `12 - i`, one block
earlier each retry, so every single detection pass raises. -/
def c2ForkHeader (i : Nat) : Nat → BlockHeader := fun k =>
  if k = 12 - i then ⟨k, "F", k⟩ else originalHeader k

def c2Views : Nat → SourceView := fun i => ⟨12, mkFetch (c2ForkHeader i)⟩

def c2Monitor : ReorganisationMonitor := mkBufferedMonitor 12

/-- The C6 counterexample: blocks 1..3 buffered while the node's tip moved
back to 2, answering consistently for the full requested range. -/
def c6View : SourceView := ⟨2, mkFetch originalHeader⟩

def c6Monitor : ReorganisationMonitor := mkBufferedMonitor 3

/-- The C4 counterexample: a non-empty buffer holding only the genesis block
0, which makes `last_block_read = 0` despite the buffer being non-empty. -/
def c4ZeroMonitor : ReorganisationMonitor :=
  { block_map := fun k => if k = 0 then some ⟨0, "g", 0⟩ else none
    last_block_read := 0
    check_depth := 20
    max_cycle_tries := 10
    reorg_wait_seconds := 5 }

/-- The C3 counterexample: genesis block 0 followed by block 5. -/
def c3GapBlocks : List BlockHeader := [⟨0, "g", 0⟩, ⟨5, "b", 5⟩]

/-- Projection of a monitor-valued `Except`, with a default for errors. -/
def monitorOf (r : Except (MonError × ReorganisationMonitor) ReorganisationMonitor)
    (d : ReorganisationMonitor) : ReorganisationMonitor :=
  match r with
  | .ok m => m
  | .error _ => d

/-- Did the monitor-valued call return normally? -/
def exceptOk (r : Except (MonError × ReorganisationMonitor) ReorganisationMonitor) :
    Bool :=
  match r with
  | .ok _ => true
  | .error _ => false

lemma mkBufferedMonitor_interval (n : Nat) :
    isInterval (mkBufferedMonitor n).block_map 1 n := by
  intro k
  show (if 1 ≤ k ∧ k ≤ n then some (originalHeader k) else none).isSome ↔
    1 ≤ k ∧ k ≤ n
  by_cases hk : 1 ≤ k ∧ k ≤ n
  · simp [hk]
  · simp [hk]

lemma c1ForkHeader_number (n : Nat) : (c1ForkHeader n).block_number = n := by
  unfold c1ForkHeader
  split
  · rfl
  · rfl

/-! ### Claim theorems -/

/-- C5: for a buffer containing block `N` with hash `H1`,
`check_block_reorg(N, H2)` with `H2 ≠ H1` raises `ChainReorganisationDetected`
carrying `(N, H1, H2)`; with `H2 = H1` it raises nothing; for an unbuffered
`N` it is a no-op for any hash.  The modelled operation is pure, so the
buffer is unchanged in every case. -/
theorem claim5_check_block_reorg :
    ∀ (m : ReorganisationMonitor) (bn : Nat) (hdr : BlockHeader) (h2 : String),
      (m.block_map bn = some hdr → hdr.block_hash ≠ h2 →
        check_block_reorg m bn h2 =
          some (.reorgDetected bn hdr.block_hash h2)) ∧
      (m.block_map bn = some hdr → hdr.block_hash = h2 →
        check_block_reorg m bn h2 = none) ∧
      (m.block_map bn = none → check_block_reorg m bn h2 = none) := by
  intro m bn hdr h2
  refine ⟨?_, ?_, ?_⟩
  · intro hsome hne
    unfold check_block_reorg
    rw [hsome]
    simp [hne]
  · intro hsome heq
    unfold check_block_reorg
    rw [hsome]
    simp [heq]
  · intro hnone
    unfold check_block_reorg
    rw [hnone]

/-- Witness for C5 on the concrete 3-block buffer. -/
theorem claim5_check_block_reorg_witness :
    check_block_reorg (mkBufferedMonitor 3) 2 "X" =
      some (.reorgDetected 2 (chainHash 2) "X") ∧
    check_block_reorg (mkBufferedMonitor 3) 2 (chainHash 2) = none ∧
    check_block_reorg (mkBufferedMonitor 3) 7 "X" = none := by
  refine ⟨?_, ?_, ?_⟩
  · exact (claim5_check_block_reorg (mkBufferedMonitor 3) 2 (originalHeader 2)
      "X").1 rfl (by decide)
  · exact (claim5_check_block_reorg (mkBufferedMonitor 3) 2 (originalHeader 2)
      (chainHash 2)).2.1 rfl rfl
  · exact (claim5_check_block_reorg (mkBufferedMonitor 3) 7 (originalHeader 7)
      "X").2.2 rfl

/-- C7: `get_block_timestamp` raises `BlockNotAvailable` exactly when the
buffer is empty or the block number is absent, and returns the buffered
header's timestamp when present.  The modelled operation is pure, so the
buffer is unchanged. -/
theorem claim7_get_block_timestamp :
    ∀ (m : ReorganisationMonitor) (bn : Nat),
      (get_block_timestamp m bn = .error .blockNotAvailable ↔
        (mapEmpty m.block_map ∨ m.block_map bn = none)) ∧
      (∀ hdr, m.block_map bn = some hdr →
        get_block_timestamp m bn = .ok hdr.timestamp) := by
  intro m bn
  constructor
  · constructor
    · intro herr
      cases hmb : m.block_map bn with
      | none => exact Or.inr rfl
      | some hdr =>
          unfold get_block_timestamp at herr
          rw [hmb] at herr
          exact absurd herr (by simp)
    · intro hcond
      have hnone : m.block_map bn = none := by
        rcases hcond with hemp | hnone
        · exact hemp bn
        · exact hnone
      unfold get_block_timestamp
      rw [hnone]
  · intro hdr hsome
    unfold get_block_timestamp
    rw [hsome]

/-- Witness for C7: a hit on the 3-block buffer and a miss on the empty
monitor. -/
theorem claim7_get_block_timestamp_witness :
    get_block_timestamp (mkBufferedMonitor 3) 2 = .ok 2 ∧
    get_block_timestamp mkReorganisationMonitor 1 = .error .blockNotAvailable := by
  constructor
  · exact (claim7_get_block_timestamp (mkBufferedMonitor 3) 2).2
      (originalHeader 2) rfl
  · exact (claim7_get_block_timestamp mkReorganisationMonitor 1).1.mpr
      (Or.inl (fun k => rfl))

/-- C8: a bounded lazy lookup whose fetched block number falls outside the
container's inclusive `[start_block, end_block]` range raises
`OutOfSpecifiedRangeRead`; a lookup inside the range stores the timestamp in
both caches and returns it. -/
theorem claim8_out_of_range_read :
    ∀ (c : LazyTimestampContainer) (r : RpcBlockResponse),
      ((r.number < c.start_block ∨ c.end_block < r.number) →
        update_block_hash c r = .error .outOfSpecifiedRangeRead) ∧
      (c.start_block ≤ r.number → r.number ≤ c.end_block →
        ∃ c2, update_block_hash c r = .ok (r.timestamp, c2) ∧
          c2.cache_by_block_number r.number = some r.timestamp ∧
          c2.cache_by_block_hash r.hash = some r.timestamp) := by
  intro c r
  constructor
  · intro hout
    unfold update_block_hash
    rw [if_pos (by omega)]
  · intro h1 h2
    unfold update_block_hash
    rw [if_neg (not_not_intro ⟨h1, h2⟩)]
    refine ⟨_, rfl, ?_, ?_⟩
    · simp
    · simp

/-- Witness for C8: one out-of-range lookup and one in-range lookup against a
fresh `[5, 10]` container. -/
theorem claim8_out_of_range_read_witness :
    update_block_hash ⟨5, 10, fun _ => none, fun _ => none⟩ ⟨12, "h12", 99⟩ =
      .error .outOfSpecifiedRangeRead ∧
    ∃ c2, update_block_hash ⟨5, 10, fun _ => none, fun _ => none⟩ ⟨7, "h7", 42⟩ =
        .ok (42, c2) ∧
      c2.cache_by_block_number 7 = some 42 ∧
      c2.cache_by_block_hash "h7" = some 42 := by
  constructor
  · exact (claim8_out_of_range_read ⟨5, 10, fun _ => none, fun _ => none⟩
      ⟨12, "h12", 99⟩).1 (by decide)
  · exact (claim8_out_of_range_read ⟨5, 10, fun _ => none, fun _ => none⟩
      ⟨7, "h7", 42⟩).2 (by decide) (by decide)

/-- C9: `add_block` is not atomic on its out-of-order failure path: with a
non-empty buffer (`last_block_read ≠ 0`), an unbuffered number different from
`last_block_read + 1` fails only after the header has been inserted into
`block_map` (and `last_block_read` untouched), while the duplicate failure is
checked before insertion and leaves the monitor unchanged. -/
theorem claim9_add_block_not_atomic :
    ∀ (m : ReorganisationMonitor) (h : BlockHeader),
      ((m.block_map h.block_number).isSome →
        add_block m h = .error (.duplicateBlock, m)) ∧
      (m.block_map h.block_number = none → m.last_block_read ≠ 0 →
        h.block_number ≠ m.last_block_read + 1 →
        add_block m h = .error (.outOfOrder,
          { m with block_map := bmInsert m.block_map h.block_number h }) ∧
        bmInsert m.block_map h.block_number h h.block_number = some h) := by
  intro m h
  constructor
  · intro hdup
    unfold add_block
    rw [if_pos hdup]
  · intro hnone hne0 hnesucc
    constructor
    · unfold add_block
      rw [if_neg (by simp [hnone]), if_pos ⟨hne0, fun heq => hnesucc (by omega)⟩]
    · simp [bmInsert]

/-- Witness for C9: duplicate insertion of block 1 and out-of-order insertion
of block 3 against a buffer holding only block 1. -/
theorem claim9_add_block_not_atomic_witness :
    add_block (mkBufferedMonitor 1) (originalHeader 1) =
      .error (.duplicateBlock, mkBufferedMonitor 1) ∧
    add_block (mkBufferedMonitor 1) ⟨3, "x", 3⟩ =
      .error (.outOfOrder,
        { mkBufferedMonitor 1 with
          block_map := bmInsert (mkBufferedMonitor 1).block_map 3 ⟨3, "x", 3⟩ }) ∧
    bmInsert (mkBufferedMonitor 1).block_map 3 ⟨3, "x", 3⟩ 3 = some ⟨3, "x", 3⟩ := by
  refine ⟨?_, ?_, ?_⟩
  · exact (claim9_add_block_not_atomic (mkBufferedMonitor 1)
      (originalHeader 1)).1 (by decide)
  · exact ((claim9_add_block_not_atomic (mkBufferedMonitor 1)
      ⟨3, "x", 3⟩).2 rfl (by decide) (by decide)).1
  · exact ((claim9_add_block_not_atomic (mkBufferedMonitor 1)
      ⟨3, "x", 3⟩).2 rfl (by decide) (by decide)).2

/-- C10: a first-attempt clean pass makes `update_chain` return a resolution
whose `latest_block_with_good_data` is the entry value of `last_block_read`
and whose `last_live_block` is the post-pass `last_block_read`, with
`reorg_detected = false`; when the pass appended blocks, the former is
strictly below the latter. -/
theorem claim10_clean_pass_resolution :
    ∀ (views : Nat → SourceView) (m m1 : ReorganisationMonitor),
      0 < m.max_cycle_tries →
      figure_reorganisation_and_new_blocks (views 0) m = .ok m1 →
      (update_chain views m).result =
        .ok ⟨m1.last_block_read, m.last_block_read, false⟩ ∧
      (update_chain views m).monitor = m1 ∧
      (∀ res, (update_chain views m).result = .ok res →
        m.last_block_read < m1.last_block_read →
        res.latest_block_with_good_data < res.last_live_block) := by
  intro views m m1 htries hfig
  have hr : reorgRound (views 0) m = .clean m1 := reorgRound_clean_iff.mpr hfig
  obtain ⟨t, ht⟩ : ∃ t, m.max_cycle_tries = t + 1 :=
    ⟨m.max_cycle_tries - 1, by omega⟩
  have hout : update_chain views m =
      ⟨.ok ⟨m1.last_block_read, m.last_block_read, false⟩, m1, 1, []⟩ := by
    unfold update_chain
    rw [ht]
    simp [update_chain_go, hr]
  rw [hout]
  refine ⟨rfl, rfl, ?_⟩
  intro res hres hlt
  dsimp only at hres
  simp only [Except.ok.injEq] at hres
  rw [← hres]
  exact hlt

/-- The monitor state after the C10 clean pass (blocks 4 and 5 appended). -/
def c10Views : Nat → SourceView := fun _ => ⟨5, mkFetch originalHeader⟩

def c10Monitor : ReorganisationMonitor := mkBufferedMonitor 3

def c10After : ReorganisationMonitor :=
  monitorOf (figure_reorganisation_and_new_blocks (c10Views 0) c10Monitor) c10Monitor

/-- Witness for C10: blocks 1..3 buffered, the source serves 1..5 cleanly. -/
theorem claim10_clean_pass_resolution_witness :
    (update_chain c10Views c10Monitor).result =
      .ok ⟨c10After.last_block_read, c10Monitor.last_block_read, false⟩ ∧
    (update_chain c10Views c10Monitor).monitor = c10After ∧
    c10After.last_block_read = 5 ∧
    c10Monitor.last_block_read = 3 := by
  have h := claim10_clean_pass_resolution c10Views c10Monitor c10After
    (by decide) rfl
  exact ⟨h.1, h.2.1, rfl, rfl⟩

/-- C2: `update_chain` raises `ReorganisationResolutionFailure` exactly when
all of its `max_cycle_tries` attempts (calls to
`figure_reorganisation_and_new_blocks`, counted in `attempts`) ended in a
caught reorganisation (one watermark entry per attempt), so the failure comes
after exactly `max_cycle_tries` attempts and never after any other number;
the concrete run against a source that forks at a fresh block on every single
attempt exhausts the default budget of 10. -/
theorem claim2_exhaustion :
    (∀ (views : Nat → SourceView) (m : ReorganisationMonitor),
      (update_chain views m).result = .error .resolutionFailure ↔
        ((update_chain views m).attempts = m.max_cycle_tries ∧
          (update_chain views m).purges.length = m.max_cycle_tries)) ∧
    (update_chain c2Views c2Monitor).result = .error .resolutionFailure ∧
    (update_chain c2Views c2Monitor).attempts = 10 ∧
    c2Monitor.max_cycle_tries = 10 ∧
    (update_chain c2Views c2Monitor).purges = [11, 10, 9, 8, 7, 6, 5, 4, 3, 2] := by
  refine ⟨?_, rfl, rfl, rfl, rfl⟩
  intro views m
  exact update_chain_go_failure_iff m.max_cycle_tries views 0
    m.last_block_read false m

/-- C3 (amended): starting from an empty buffer, every accepted `add_block`
sequence of headers with positive block numbers leaves the keys a contiguous
run ending at `last_block_read`; and `add_block` fails exactly when the
number is already present, or when `last_block_read ≠ 0` and the number is
not `last_block_read + 1`.  (The unamended claim used "buffer non-empty" in
place of `last_block_read ≠ 0`; a buffer holding only genesis block 0 keeps
`last_block_read = 0` and accepts any number, see the counterexample.) -/
theorem claim3_no_gap_amended :
    (∀ (l : List BlockHeader) (m' : ReorganisationMonitor),
      (∀ h ∈ l, 1 ≤ h.block_number) →
      addBlocks mkReorganisationMonitor l = .ok m' →
      GoodBuffer m' ∧
        (l ≠ [] → ∃ lo, 1 ≤ lo ∧ lo ≤ m'.last_block_read ∧
          isInterval m'.block_map lo m'.last_block_read)) ∧
    (∀ (m : ReorganisationMonitor) (h : BlockHeader),
      (∃ e m2, add_block m h = .error (e, m2)) ↔
        ((m.block_map h.block_number).isSome ∨
          (m.last_block_read ≠ 0 ∧ h.block_number ≠ m.last_block_read + 1))) := by
  constructor
  · intro l m' hpos hok
    have hemp : GoodBuffer mkReorganisationMonitor := Or.inl (fun k => rfl)
    have hgood := addBlocks_good l mkReorganisationMonitor m' hemp hpos hok
    refine ⟨hgood.1, ?_⟩
    intro hne
    rcases hgood.1 with hempm | hint
    · exfalso
      obtain ⟨b, t, rfl⟩ := List.exists_cons_of_ne_nil hne
      simp only [addBlocks] at hok
      cases ha : add_block mkReorganisationMonitor b with
      | ok m1 =>
          rw [ha] at hok
          have hg1 := (add_block_good hemp (hpos b (by simp)) ha).1
          have hmono := (addBlocks_good t m1 m' hg1
            (fun h hh => hpos h (by simp [hh])) hok).2
          obtain ⟨_, _, hm1⟩ := add_block_ok_elim ha
          have hb : (m1.block_map b.block_number).isSome := by
            rw [hm1]
            simp [bmInsert]
          have hb' := hmono b.block_number hb
          rw [hempm b.block_number] at hb'
          exact absurd hb' (by simp)
      | error em =>
          obtain ⟨e2, m2⟩ := em
          rw [ha] at hok
          exact absurd hok (by simp)
    · exact hint
  · exact add_block_error_iff

/-- Counterexample to C3 as stated: from the empty buffer, `add_block`
accepts genesis block 0 and then block 5 without error, leaving keys
`{0, 5}` — a gap — with `last_block_read = 5`, even though the buffer was
non-empty and `5 ≠ 0 + 1` when block 5 arrived. -/
theorem claim3_gap_counterexample :
    exceptOk (addBlocks mkReorganisationMonitor c3GapBlocks) = true ∧
    (monitorOf (addBlocks mkReorganisationMonitor c3GapBlocks)
        mkReorganisationMonitor).block_map 0 = some ⟨0, "g", 0⟩ ∧
    (monitorOf (addBlocks mkReorganisationMonitor c3GapBlocks)
        mkReorganisationMonitor).block_map 5 = some ⟨5, "b", 5⟩ ∧
    (monitorOf (addBlocks mkReorganisationMonitor c3GapBlocks)
        mkReorganisationMonitor).block_map 3 = none ∧
    (monitorOf (addBlocks mkReorganisationMonitor c3GapBlocks)
        mkReorganisationMonitor).last_block_read = 5 :=
  ⟨rfl, rfl, rfl, rfl, rfl⟩

/-- Witness for C3 (amended) on the accepted sequence 1, 2. -/
theorem claim3_no_gap_amended_witness :
    GoodBuffer (monitorOf (addBlocks mkReorganisationMonitor
      [originalHeader 1, originalHeader 2]) mkReorganisationMonitor) ∧
    (∃ lo, 1 ≤ lo ∧
      lo ≤ (monitorOf (addBlocks mkReorganisationMonitor
        [originalHeader 1, originalHeader 2]) mkReorganisationMonitor).last_block_read ∧
      isInterval (monitorOf (addBlocks mkReorganisationMonitor
        [originalHeader 1, originalHeader 2]) mkReorganisationMonitor).block_map lo
        (monitorOf (addBlocks mkReorganisationMonitor
          [originalHeader 1, originalHeader 2]) mkReorganisationMonitor).last_block_read) := by
  have h := claim3_no_gap_amended.1 [originalHeader 1, originalHeader 2]
    (monitorOf (addBlocks mkReorganisationMonitor
      [originalHeader 1, originalHeader 2]) mkReorganisationMonitor)
    (by decide) rfl
  exact ⟨h.1, h.2 (by decide)⟩

/-- C4 (amended): for every buffer whose keys form a contiguous run
`[lo, last_block_read]` with `lo ≥ 1`, and every `K ≥ lo`, `truncate(K)`
succeeds, keeps exactly the headers with numbers `≤ K` unchanged, removes all
others, and sets `last_block_read = K`.  (The unamended claim only required a
non-empty buffer; a buffer holding only genesis block 0 is non-empty yet
fails `truncate`'s `last_block_read` truthiness assert, see the
counterexample.) -/
theorem claim4_truncate_amended :
    ∀ (m : ReorganisationMonitor) (lo K : Nat),
      1 ≤ lo → lo ≤ m.last_block_read →
      isInterval m.block_map lo m.last_block_read →
      lo ≤ K →
      ∃ m2, truncate m K = .ok m2 ∧ m2.last_block_read = K ∧
        (∀ k, k ≤ K → m2.block_map k = m.block_map k) ∧
        (∀ k, K < k → m2.block_map k = none) := by
  intro m lo K hlo1 hlole hint hK
  refine ⟨_, truncate_spec hlo1 hlole hint (by omega), rfl, ?_, ?_⟩
  · intro k hk
    show (if k ≤ K then m.block_map k else none) = m.block_map k
    rw [if_pos hk]
  · intro k hk
    show (if k ≤ K then m.block_map k else none) = none
    rw [if_neg (by omega)]

/-- Counterexample to C4 as stated: the non-empty buffer holding only block 0
(whose minimum key 0 satisfies `K = 0 ≥ min key`) makes `truncate(0)` raise
its precondition assert instead of succeeding, because the code tests
emptiness through `last_block_read`'s truthiness. -/
theorem claim4_zero_buffer_counterexample :
    (c4ZeroMonitor.block_map 0).isSome = true ∧
    truncate c4ZeroMonitor 0 = .error (.assertionFailed, c4ZeroMonitor) :=
  ⟨rfl, rfl⟩

/-- Witness for C4 (amended): truncating the 3-block buffer at `K = 2`. -/
theorem claim4_truncate_amended_witness :
    ∃ m2, truncate (mkBufferedMonitor 3) 2 = .ok m2 ∧
      m2.last_block_read = 2 ∧
      (∀ k, k ≤ 2 → m2.block_map k = (mkBufferedMonitor 3).block_map k) ∧
      (∀ k, 2 < k → m2.block_map k = none) :=
  claim4_truncate_amended (mkBufferedMonitor 3) 1 2 (by decide) (by decide)
    (mkBufferedMonitor_interval 3) (by decide)

/-- C6 (amended): one detection pass reads the inclusive range from
`max(last_block_read - check_depth, 1)` to the chain tip, and for each yielded
header first compares it against any buffered entry at that number (which may
raise) and then appends it exactly when the number is not buffered; a pass
that completes without raising over a source yielding the full requested
range leaves `last_block_read = max(previous last_block_read, chain_tip)` —
equal to `chain_tip` whenever the tip is not below the previous
`last_block_read`.  (The unamended claim said `last_block_read = chain_tip`
unconditionally, which fails when the tip is below `last_block_read`, see the
counterexample.) -/
theorem claim6_detection_pass_amended :
    (∀ (v : SourceView) (m : ReorganisationMonitor),
      figure_reorganisation_and_new_blocks v m =
        processBlocks m
          (v.fetch (max (m.last_block_read - m.check_depth) 1) v.tip)) ∧
    (∀ (m : ReorganisationMonitor) (b : BlockHeader) (rest : List BlockHeader)
        (e : MonError),
      check_block_reorg m b.block_number b.block_hash = some e →
      processBlocks m (b :: rest) = .error (e, m)) ∧
    (∀ (m : ReorganisationMonitor) (b : BlockHeader) (rest : List BlockHeader),
      check_block_reorg m b.block_number b.block_hash = none →
      (m.block_map b.block_number).isSome →
      processBlocks m (b :: rest) = processBlocks m rest) ∧
    (∀ (m m1 : ReorganisationMonitor) (b : BlockHeader) (rest : List BlockHeader),
      check_block_reorg m b.block_number b.block_hash = none →
      m.block_map b.block_number = none →
      add_block m b = .ok m1 →
      processBlocks m (b :: rest) = processBlocks m1 rest) ∧
    (∀ (v : SourceView) (m m' : ReorganisationMonitor) (f : Nat → BlockHeader),
      GoodBuffer m →
      (∀ n, (f n).block_number = n) →
      v.fetch (max (m.last_block_read - m.check_depth) 1) v.tip =
        mkFetch f (max (m.last_block_read - m.check_depth) 1) v.tip →
      figure_reorganisation_and_new_blocks v m = .ok m' →
      m'.last_block_read = max m.last_block_read v.tip) := by
  refine ⟨fun v m => rfl, ?_, ?_, ?_, ?_⟩
  · intro m b rest e hc
    simp [processBlocks, hc]
  · intro m b rest hc hin
    simp [processBlocks, hc, hin]
  · intro m m1 b rest hc hnone ha
    simp [processBlocks, hc, hnone, ha]
  · intro v m m' f hg hf hfetch hok
    have hok2 : processBlocks m
        ((List.range' (max (m.last_block_read - m.check_depth) 1)
          (v.tip + 1 - max (m.last_block_read - m.check_depth) 1)).map f) =
        .ok m' := by
      have hok1 : processBlocks m
          (mkFetch f (max (m.last_block_read - m.check_depth) 1) v.tip) =
          .ok m' := by
        rw [← hfetch]
        exact hok
      exact hok1
    have hlast := processBlocks_range_last _ _ m m' f (le_max_right _ _) hg hf hok2
    by_cases hc0 : v.tip + 1 - max (m.last_block_read - m.check_depth) 1 = 0
    · rw [if_pos hc0] at hlast
      rw [hlast]
      omega
    · rw [if_neg hc0] at hlast
      rw [hlast]
      omega

/-- Counterexample to C6 as stated: with blocks 1..3 buffered and the node's
tip at 2, the pass reads the full requested range `[1, 2]`, completes without
raising, and leaves `last_block_read = 3 ≠ 2 = chain_tip`. -/
theorem claim6_tip_below_counterexample :
    figure_reorganisation_and_new_blocks c6View c6Monitor = .ok c6Monitor ∧
    c6View.fetch (max (c6Monitor.last_block_read - c6Monitor.check_depth) 1)
      c6View.tip = [originalHeader 1, originalHeader 2] ∧
    c6Monitor.last_block_read = 3 ∧
    c6View.tip = 2 :=
  ⟨rfl, rfl, rfl, rfl⟩

/-- Witness for C6 (amended): the C10 clean pass (tip 5 above the buffered 3)
ends at `max 3 5 = 5`. -/
theorem claim6_detection_pass_amended_witness :
    c10After.last_block_read =
      max c10Monitor.last_block_read (c10Views 0).tip := by
  exact claim6_detection_pass_amended.2.2.2.2 (c10Views 0) c10Monitor c10After
    originalHeader (mkBufferedMonitor_good (by decide)) (fun n => rfl) rfl rfl

/-- C1: under the buffer invariant and the source contract, the watermark
values taken by `max_purge` during one `update_chain` cycle — starting from
the entry `last_block_read` and recording one value per caught
reorganisation — form a non-increasing chain, so the first detection sets the
watermark and every later detection only narrows it, and an `ok` resolution
reports as `latest_block_with_good_data` the final (hence smallest) watermark
value of the run; in the concrete convergence run (blocks 1..12 buffered, the
source forks at block 10 on attempt 1 and stays stable afterwards)
`update_chain` returns `reorg_detected = true` with
`latest_block_with_good_data = 9 ≤ 9`, and the final buffer carries the
post-fork hashes at 10, 11, 12 and nothing above the new tip. -/
theorem claim1_watermark_monotone :
    (∀ (views : Nat → SourceView) (m : ReorganisationMonitor),
      GoodBuffer m → (∀ j, goodSource (views j)) →
      List.Chain' (fun a b => b ≤ a)
        (m.last_block_read :: (update_chain views m).purges) ∧
      (∀ res, (update_chain views m).result = .ok res →
        res.latest_block_with_good_data =
          (update_chain views m).purges.getLastD m.last_block_read)) ∧
    (update_chain c1Views c1Monitor).result = .ok ⟨12, 9, true⟩ ∧
    (update_chain c1Views c1Monitor).purges = [9] ∧
    (update_chain c1Views c1Monitor).monitor.block_map 10 =
      some (c1ForkHeader 10) ∧
    (update_chain c1Views c1Monitor).monitor.block_map 11 =
      some (c1ForkHeader 11) ∧
    (update_chain c1Views c1Monitor).monitor.block_map 12 =
      some (c1ForkHeader 12) ∧
    (∀ k, 13 ≤ k →
      (update_chain c1Views c1Monitor).monitor.block_map k = none) := by
  constructor
  · intro views m hg hsrc
    have h := update_chain_go_watermarks m.max_cycle_tries views 0
      m.last_block_read false m hg (fun h0 => goodBuffer_last_zero hg h0) hsrc
    exact ⟨h.1, fun res hres => (h.2 res hres).1⟩
  · refine ⟨rfl, rfl, rfl, rfl, rfl, ?_⟩
    intro k hk
    have hg : GoodBuffer c1Monitor := mkBufferedMonitor_good (by decide)
    have hsrc : ∀ j, goodSource (c1Views j) :=
      fun j => goodSource_mkFetch 12 c1ForkHeader c1ForkHeader_number
    have h := update_chain_go_watermarks c1Monitor.max_cycle_tries c1Views 0
      c1Monitor.last_block_read false c1Monitor hg
      (fun h0 => goodBuffer_last_zero hg h0) hsrc
    have hgood := (h.2 ⟨12, 9, true⟩ rfl).2
    rcases hgood with hemp | ⟨lo, hlo1, hlole, hint⟩
    · exact hemp k
    · refine Option.not_isSome_iff_eq_none.mp (fun hs => ?_)
      have hb := (hint k).mp hs
      have hlast : (update_chain_go c1Views 0 c1Monitor.last_block_read false
          c1Monitor c1Monitor.max_cycle_tries).monitor.last_block_read = 12 := rfl
      omega

/-- Witness for C1: the convergence run instantiates the general part, with
watermark chain `12 :: [9]` and reported `latest_block_with_good_data`
equal to the last watermark. -/
theorem claim1_watermark_monotone_witness :
    List.Chain' (fun a b => b ≤ a)
      (c1Monitor.last_block_read :: (update_chain c1Views c1Monitor).purges) ∧
    (ChainReorganisationResolution.mk 12 9 true).latest_block_with_good_data =
      (update_chain c1Views c1Monitor).purges.getLastD
        c1Monitor.last_block_read := by
  have h := claim1_watermark_monotone.1 c1Views c1Monitor
    (mkBufferedMonitor_good (by decide))
    (fun j => goodSource_mkFetch 12 c1ForkHeader c1ForkHeader_number)
  exact ⟨h.1, h.2 ⟨12, 9, true⟩ rfl⟩
